import Mathlib

/-!
Verification of the PubliKey agent's SSH key reconciliation engine
(`src/ssh_keys.rs`) against its specification.

The Rust source is shallowly embedded: pure string processing is modelled
over `List Char` (the source operates on Rust `str`; whitespace is the full
Unicode `White_Space` set of Rust's `char::is_whitespace`), the `base64`
crate's `STANDARD` engine (canonical padding required, trailing bits
rejected) and the `sha2` crate's SHA-256 are
implemented executably, and the filesystem is modelled as a partial map from
path strings to file contents.  `u32` statistics counters are modelled as
`Nat` (all counts are bounded by input list lengths, far below `2^32`).
All definitions are structural recursions so that concrete runs evaluate
inside the kernel.
-/

namespace PubliKey

/-! ## Character list utilities (Rust `str` operations) -/

/-- Rust `char::is_whitespace`: the Unicode `White_Space` property —
U+0009..U+000D (tab, LF, VT, FF, CR), space, NEL, NBSP, Ogham space mark,
U+2000..U+200A, line and paragraph separators, narrow NBSP, medium
mathematical space, and ideographic space. -/
def wsChar (c : Char) : Bool :=
  (9 ≤ c.toNat && c.toNat ≤ 13) || c.toNat = 32 ||
  c.toNat = 133 || c.toNat = 160 || c.toNat = 5760 ||
  (8192 ≤ c.toNat && c.toNat ≤ 8202) || c.toNat = 8232 || c.toNat = 8233 ||
  c.toNat = 8239 || c.toNat = 8287 || c.toNat = 12288

/-- Drop a trailing run of whitespace (the tail half of Rust `str::trim`). -/
def dropTrailWs : List Char → List Char
  | [] => []
  | c :: cs =>
    match dropTrailWs cs with
    | [] => if wsChar c then [] else [c]
    | r => c :: r

/-- Rust `str::trim`: drop leading and trailing whitespace. -/
def trimChars (l : List Char) : List Char :=
  dropTrailWs (l.dropWhile wsChar)

/-- Helper for `splitWs`: `acc` holds the current token, reversed. -/
def splitWsAux : List Char → List Char → List (List Char)
  | [], acc => if acc.isEmpty then [] else [acc.reverse]
  | c :: cs, acc =>
    if wsChar c then
      if acc.isEmpty then splitWsAux cs [] else acc.reverse :: splitWsAux cs []
    else splitWsAux cs (c :: acc)

/-- Rust `str::split_whitespace`: maximal non-whitespace runs, in order. -/
def splitWs (l : List Char) : List (List Char) :=
  splitWsAux l []

/-- Rust `[&str]::join(" ")` on the underlying character lists. -/
def joinSpace : List (List Char) → List Char
  | [] => []
  | [t] => t
  | t :: ts => t ++ ' ' :: joinSpace ts

/-- Helper for `rustLines`: split on newline characters, keeping empties. -/
def splitNlAux : List Char → List Char → List (List Char)
  | [], acc => [acc.reverse]
  | c :: cs, acc =>
    if c = '\n' then acc.reverse :: splitNlAux cs [] else splitNlAux cs (c :: acc)

/-- Strip one trailing carriage return (Rust `str::lines` does this). -/
def stripCR (l : List Char) : List Char :=
  if l.getLast? = some '\r' then l.dropLast else l

/-- Rust `str::lines`: split on newlines, drop a final empty line, strip
a trailing carriage return from each line. -/
def rustLines (s : String) : List String :=
  let parts := splitNlAux s.data []
  let parts := if parts.getLast? = some [] then parts.dropLast else parts
  parts.map (fun l => String.mk (stripCR l))

/-- Rust `str::strip_prefix`: remove `pat` from the front of `l`, if present. -/
def dropPre : List Char → List Char → Option (List Char)
  | [], l => some l
  | _ :: _, [] => none
  | p :: ps, c :: cs => if p = c then dropPre ps cs else none

/-- Rust `str::replace` specialised to a two-character pattern `c₁c₂`:
scan left to right, replacing each non-overlapping occurrence with `rep`;
replacement text is not rescanned. -/
def replace2 (c₁ c₂ : Char) (rep : List Char) : List Char → List Char
  | [] => []
  | [a] => [a]
  | a :: b :: rest₂ =>
    if a = c₁ && b = c₂ then rep ++ replace2 c₁ c₂ rep rest₂
    else a :: replace2 c₁ c₂ rep (b :: rest₂)

/-- Split a path at its last slash: `some (before, after)` where the slash
itself belongs to neither part. -/
def lastSlashSplit : List Char → Option (List Char × List Char)
  | [] => none
  | c :: cs =>
    match lastSlashSplit cs with
    | some (b, a) => some (c :: b, a)
    | none => if c = '/' then some ([], cs) else none

/-- Split a file name at its last dot, provided it is not the leading
character (Rust file-stem rules for hidden files). -/
def lastDotSplit : List Char → Option (List Char × List Char)
  | [] => none
  | c :: cs =>
    match lastDotSplit cs with
    | some (b, a) => some (c :: b, a)
    | none => if c = '.' then some ([], cs) else none

/-- Rust `Path::file_stem` of a bare file name: the part before the last
dot, unless that dot is the leading character. -/
def stemOf (name : List Char) : List Char :=
  match lastDotSplit name with
  | some ([], _) => name
  | some (b, _) => b
  | none => name

/-- Rust `Path::parent`, modelled on slash-separated absolute or relative
paths without trailing slashes. -/
def parentDir (p : String) : Option String :=
  match lastSlashSplit p.data with
  | none => if p.data.isEmpty then none else some ""
  | some ([], []) => none
  | some ([], _) => some "/"
  | some (b, _) => some (String.mk b)

/-- Rust `Path::with_extension("tmp")`: replace the file name's extension
(or append one) with `tmp`. -/
def tmpPath (p : String) : String :=
  match lastSlashSplit p.data with
  | none => String.mk (stemOf p.data ++ ".tmp".data)
  | some (b, a) => String.mk (b ++ '/' :: stemOf a ++ ".tmp".data)

/-- Rust `PathBuf::join` with a relative right operand. -/
def joinPath (base rel : String) : String :=
  if base.data.isEmpty then rel
  else if base.data.getLast? = some '/' then String.mk (base.data ++ rel.data)
  else String.mk (base.data ++ '/' :: rel.data)

/-! ## Base64 (the `base64` crate's `STANDARD` engine) -/

/-- Value of one standard-alphabet base64 character. -/
def b64Val (c : Char) : Option Nat :=
  if 'A' ≤ c && c ≤ 'Z' then some (c.toNat - 65)
  else if 'a' ≤ c && c ≤ 'z' then some (c.toNat - 71)
  else if '0' ≤ c && c ≤ '9' then some (c.toNat + 4)
  else if c = '+' then some 62
  else if c = '/' then some 63
  else none

/-- The standard base64 alphabet. -/
def b64Alphabet : List Char :=
  "ABCDEFGHIJKLMNOPQRSTUVWXYZabcdefghijklmnopqrstuvwxyz0123456789+/".data

/-- Character for a 6-bit group. -/
def b64Chr (n : Nat) : Char := b64Alphabet.getD n '?'

/-- Standard base64 decoding with required canonical padding and rejected
non-zero trailing bits, as configured by `general_purpose::STANDARD`. -/
def b64Decode : List Char → Option (List Nat)
  | [] => some []
  | a :: b :: c :: d :: rest =>
    match b64Val a, b64Val b with
    | some va, some vb =>
      if c = '=' then
        if d = '=' && rest.isEmpty then
          if vb % 16 = 0 then some [va * 4 + vb / 16] else none
        else none
      else
        match b64Val c with
        | some vc =>
          if d = '=' then
            if rest.isEmpty then
              if vc % 4 = 0 then some [va * 4 + vb / 16, vb % 16 * 16 + vc / 4]
              else none
            else none
          else
            match b64Val d with
            | some vd =>
              match b64Decode rest with
              | some tail =>
                some ((va * 4 + vb / 16) :: (vb % 16 * 16 + vc / 4) ::
                      (vc % 4 * 64 + vd) :: tail)
              | none => none
            | none => none
        | none => none
    | _, _ => none
  | _ => none

/-- Standard base64 encoding with padding. -/
def b64Encode : List Nat → List Char
  | [] => []
  | [a] => [b64Chr (a / 4), b64Chr (a % 4 * 16), '=', '=']
  | [a, b] => [b64Chr (a / 4), b64Chr (a % 4 * 16 + b / 16), b64Chr (b % 16 * 4), '=']
  | a :: b :: c :: rest =>
    b64Chr (a / 4) :: b64Chr (a % 4 * 16 + b / 16) ::
    b64Chr (b % 16 * 4 + c / 64) :: b64Chr (c % 64) :: b64Encode rest

/-! ## SHA-256 (the `sha2` crate) -/

/-- Truncate to a 32-bit word. -/
def w32 (x : Nat) : Nat := x % 4294967296

/-- Rotate the 32-bit word `x` right by `n` bits. -/
def rotr32 (n x : Nat) : Nat := w32 ((x >>> n) ||| (x <<< (32 - n)))

def shaCh (x y z : Nat) : Nat := (x &&& y) ^^^ ((x ^^^ 4294967295) &&& z)

def shaMaj (x y z : Nat) : Nat := (x &&& y) ^^^ (x &&& z) ^^^ (y &&& z)

def bsig0 (x : Nat) : Nat := rotr32 2 x ^^^ rotr32 13 x ^^^ rotr32 22 x

def bsig1 (x : Nat) : Nat := rotr32 6 x ^^^ rotr32 11 x ^^^ rotr32 25 x

def ssig0 (x : Nat) : Nat := rotr32 7 x ^^^ rotr32 18 x ^^^ (x >>> 3)

def ssig1 (x : Nat) : Nat := rotr32 17 x ^^^ rotr32 19 x ^^^ (x >>> 10)

/-- The sixty-four SHA-256 round constants, written in decimal. -/
def shaK : List Nat :=
  [1116352408, 1899447441, 3049323471, 3921009573, 961987163,
   1508970993, 2453635748, 2870763221, 3624381080, 310598401,
   607225278, 1426881987, 1925078388, 2162078206, 2614888103,
   3248222580, 3835390401, 4022224774, 264347078, 604807628,
   770255983, 1249150122, 1555081692, 1996064986, 2554220882,
   2821834349, 2952996808, 3210313671, 3336571891, 3584528711,
   113926993, 338241895, 666307205, 773529912, 1294757372,
   1396182291, 1695183700, 1986661051, 2177026350, 2456956037,
   2730485921, 2820302411, 3259730800, 3345764771, 3516065817,
   3600352804, 4094571909, 275423344, 430227734, 506948616,
   659060556, 883997877, 958139571, 1322822218, 1537002063,
   1747873779, 1955562222, 2024104815, 2227730452, 2361852424,
   2428436474, 2756734187, 3204031479, 3329325298]

/-- The initial SHA-256 hash value, written in decimal. -/
def shaH0 : List Nat :=
  [1779033703, 3144134277, 1013904242, 2773480762,
   1359893119, 2600822924, 528734635, 1541459225]

/-- Extend a 16-word message block by `fuel` schedule words. -/
def extendW (ws : List Nat) : Nat → List Nat
  | 0 => ws
  | n + 1 =>
    let l := ws.length
    extendW (ws ++ [w32 (ssig1 (ws.getD (l - 2) 0) + ws.getD (l - 7) 0 +
                          ssig0 (ws.getD (l - 15) 0) + ws.getD (l - 16) 0)]) n

/-- Working-state of the compression function. -/
abbrev ShaState := Nat × Nat × Nat × Nat × Nat × Nat × Nat × Nat

/-- One SHA-256 round. -/
def shaRound (st : ShaState) (kw : Nat × Nat) : ShaState :=
  let (a, b, c, d, e, f, g, h) := st
  let t1 := w32 (h + bsig1 e + shaCh e f g + kw.1 + kw.2)
  let t2 := w32 (bsig0 a + shaMaj a b c)
  (w32 (t1 + t2), a, b, c, w32 (d + t1), e, f, g)

/-- Compress one 16-word block into the running hash. -/
def compressBlock (hs : List Nat) (block : List Nat) : List Nat :=
  let ws := extendW block 48
  let init : ShaState :=
    (hs.getD 0 0, hs.getD 1 0, hs.getD 2 0, hs.getD 3 0,
     hs.getD 4 0, hs.getD 5 0, hs.getD 6 0, hs.getD 7 0)
  let (a, b, c, d, e, f, g, h) := (shaK.zip ws).foldl shaRound init
  [w32 (hs.getD 0 0 + a), w32 (hs.getD 1 0 + b), w32 (hs.getD 2 0 + c),
   w32 (hs.getD 3 0 + d), w32 (hs.getD 4 0 + e), w32 (hs.getD 5 0 + f),
   w32 (hs.getD 6 0 + g), w32 (hs.getD 7 0 + h)]

/-- Big-endian bytes of `n`, `k` bytes wide. -/
def natToBE (k : Nat) (n : Nat) : List Nat :=
  match k with
  | 0 => []
  | k + 1 => natToBE k (n >>> 8) ++ [n % 256]

/-- Combine bytes into big-endian 32-bit words. -/
def bytesToWords : List Nat → List Nat
  | b₀ :: b₁ :: b₂ :: b₃ :: rest =>
    (b₀ * 16777216 + b₁ * 65536 + b₂ * 256 + b₃) :: bytesToWords rest
  | _ => []

/-- Chunk a word list into 16-word blocks. -/
def chunks16 : List Nat → List (List Nat)
  | w₀ :: w₁ :: w₂ :: w₃ :: w₄ :: w₅ :: w₆ :: w₇ ::
    w₈ :: w₉ :: w₁₀ :: w₁₁ :: w₁₂ :: w₁₃ :: w₁₄ :: w₁₅ :: rest =>
    [w₀, w₁, w₂, w₃, w₄, w₅, w₆, w₇, w₈, w₉, w₁₀, w₁₁, w₁₂, w₁₃, w₁₄, w₁₅] ::
    chunks16 rest
  | _ => []

/-- SHA-256 padding: append `0x80`, zeros, then the 64-bit bit length. -/
def shaPad (msg : List Nat) : List Nat :=
  msg ++ 128 :: List.replicate ((119 - msg.length % 64) % 64) 0 ++
    natToBE 8 (msg.length * 8)

/-- SHA-256 of a byte sequence, as 32 bytes. -/
def sha256 (msg : List Nat) : List Nat :=
  let final := (chunks16 (bytesToWords (shaPad msg))).foldl compressBlock shaH0
  (final.map (natToBE 4)).flatten

/-! ## Data model (`SshKey`, `KeyAssignment`, `UserInfo`, files, stats) -/

/-- A parsed SSH public key (`struct SshKey`). -/
structure SshKey where
  key_type : String
  key_data : String
  comment : Option String
  fingerprint : String
deriving DecidableEq, Repr

/-- A PubliKey server key assignment (`api::KeyAssignment`); only the fields
the reconciliation engine reads are modelled. -/
structure KeyAssignment where
  username : String
  fingerprint : String
  public_key : String
  key_type : String
  comment : Option String
  assignment_id : String
deriving DecidableEq, Repr

/-- A local account (`users::UserInfo`); only the fields the engine reads. -/
structure UserInfo where
  username : String
  uid : Nat
  home_dir : Option String
deriving DecidableEq, Repr

/-- One candidate authorized_keys location (`struct AuthorizedKeysFile`). -/
structure AuthorizedKeysFile where
  path : String
  username : String
  uid : Nat
  exists' : Bool
deriving DecidableEq, Repr

/-- Statistics accumulator (`struct KeySyncStats`); `u32` counters modelled
as `Nat`. -/
structure KeySyncStats where
  users_processed : Nat
  keys_added : Nat
  keys_removed : Nat
  files_updated : Nat
  errors : Nat
deriving DecidableEq, Repr

/-! ## SshKey parsing, fingerprinting and matching -/

/-- `ALLOWED_KEY_TYPES`: the fixed allow-list of OpenSSH algorithm
identifiers. -/
def allowedKeyTypes : List String :=
  ["ssh-rsa", "ssh-dss", "ssh-ed25519",
   "ecdsa-sha2-nistp256", "ecdsa-sha2-nistp384", "ecdsa-sha2-nistp521",
   "sk-ssh-ed25519@openssh.com", "sk-ecdsa-sha2-nistp256@openssh.com"]

/-- `SshKey::validate_key_type`. -/
def validateKeyType (key_type : String) : Bool :=
  allowedKeyTypes.contains key_type

/-- `SshKey::validate_key_data`: succeeds exactly when the data is valid
standard base64. -/
def validateKeyData (key_data : List Char) : Bool :=
  (b64Decode key_data).isSome

/-- `SshKey::calculate_fingerprint`: SHA-256 of the decoded payload,
base64-encoded, prefixed with `SHA256:`.  The key type is ignored by the
source as well. -/
def calculateFingerprint (key_data : List Char) : Option String :=
  match b64Decode key_data with
  | none => none
  | some bytes => some (String.mk ("SHA256:".data ++ b64Encode (sha256 bytes)))

/-- The parsed comment: remaining fields joined by single spaces, or absent
when there are only two fields. -/
def commentOf (rest : List (List Char)) : Option String :=
  if rest.isEmpty then none else some (String.mk (joinSpace rest))

/-- `SshKey::parse`. -/
def SshKey.parse (line : String) : Option SshKey :=
  let l := trimChars line.data
  if l.isEmpty || l.head? = some '#' then none
  else
    match splitWs l with
    | t :: d :: rest =>
      let key_type := String.mk t
      let key_data := String.mk d
      let comment := commentOf rest
      if validateKeyType key_type then
        if validateKeyData d then
          match calculateFingerprint d with
          | some fp => some ⟨key_type, key_data, comment, fp⟩
          | none => none
        else none
      else none
    | _ => none

/-- `SshKey::to_string`: render back to authorized_keys line format. -/
def SshKey.toString (k : SshKey) : String :=
  match k.comment with
  | some c => k.key_type ++ " " ++ k.key_data ++ " " ++ c
  | none => k.key_type ++ " " ++ k.key_data

/-- `SshKey::matches_assignment`: fingerprint first, then (type, data)
against the second whitespace field of the assignment's public key
(empty string when absent). -/
def SshKey.matchesAssignment (k : SshKey) (a : KeyAssignment) : Bool :=
  if k.fingerprint == a.fingerprint then true
  else
    k.key_type == a.key_type &&
    k.key_data == String.mk ((splitWs a.public_key.data).getD 1 [])

/-! ## Locator: sshd_config patterns, token expansion, discovery

The filesystem visible to the engine is modelled as a partial map from
path strings to file contents.  `get_authorized_keys_patterns` reads the
first existing sshd_config; its content (or absence) is the `config`
parameter below. -/

/-- File contents by path; `none` means the path does not exist. -/
def FileSystem : Type := String → Option String

/-- The default pattern used when no sshd_config or no directive is found. -/
def defaultPatterns : List String := [".ssh/authorized_keys"]

/-- `SshKeyManager::get_authorized_keys_patterns`, with the content of the
first existing sshd_config (if any) passed in.  All `AuthorizedKeysFile`
directive values are collected in declaration order; space-separated
patterns on one line all apply. -/
def getAuthorizedKeysPatterns (config : Option String) : List String :=
  match config with
  | none => defaultPatterns
  | some content =>
    let pats := (rustLines content).flatMap (fun line =>
      let l := trimChars line.data
      if l.isEmpty || l.head? = some '#' then []
      else
        match dropPre "AuthorizedKeysFile".data l with
        | some restChars => (splitWs restChars).map String.mk
        | none => [])
    if pats.isEmpty then defaultPatterns else pats

/-- `SshKeyManager::expand_authorized_keys_pattern`: sequential `%h`, `%u`,
`%%` replacement, then absolute/relative resolution. -/
def expandAuthorizedKeysPattern (pattern username homeDir : String) :
    Option String :=
  let e₁ := replace2 '%' 'h' homeDir.data pattern.data
  let e₂ := replace2 '%' 'u' username.data e₁
  let e₃ := replace2 '%' '%' ['%'] e₂
  some (if e₃.head? = some '/' then String.mk e₃ else joinPath homeDir (String.mk e₃))

/-- Home directory resolution in `discover_authorized_keys_files`:
`/root` for uid 0, else the recorded home, else `/home/<username>`. -/
def userHomeDir (u : UserInfo) : String :=
  if u.uid = 0 then "/root"
  else
    match u.home_dir with
    | some h => h
    | none => "/home/" ++ u.username

/-- `SshKeyManager::discover_authorized_keys_files` over given users and
patterns, tagging each expanded path with current existence. -/
def discoverAuthorizedKeysFiles (fs : FileSystem) (patterns : List String)
    (users : List UserInfo) : List AuthorizedKeysFile :=
  users.flatMap (fun u =>
    patterns.filterMap (fun pat =>
      (expandAuthorizedKeysPattern pat u.username (userHomeDir u)).map (fun path =>
        { path := path, username := u.username, uid := u.uid,
          exists' := (fs path).isSome })))

/-! ## Store: reading and writing authorized_keys files -/

/-- `SshKeyManager::read_authorized_keys`: a non-existent file is an empty
key list; an existing file is read and parsed line by line, silently
dropping unparsable lines.  `none` models a failing read (possible only
when the recorded existence flag is stale). -/
def readAuthorizedKeys (fs : FileSystem) (f : AuthorizedKeysFile) :
    Option (List SshKey) :=
  if !f.exists' then some []
  else
    match fs f.path with
    | none => none
    | some content => some ((rustLines content).filterMap SshKey.parse)

/-- The managed-marker sentinel line. -/
def managedMarker : String := "# PubliKey managed - do not edit manually"

/-- The file body rendered by `write_authorized_keys_file`: marker line,
two explanatory comments, a blank line, then one key per line. -/
def renderContent (keys : List SshKey) : String :=
  managedMarker ++ "\n# This file is managed by PubliKey Agent\n" ++
  "# Manual changes will be overwritten\n\n" ++
  String.join (keys.map (fun k => k.toString ++ "\n"))

/-- Net effect of `write_authorized_keys_file` on file contents: the target
path holds the rendered body, and the sibling temporary file (created and
then renamed away) is gone. -/
def writeFsEffect (fs : FileSystem) (path : String) (keys : List SshKey) :
    FileSystem :=
  fun q =>
    if q = path then some (renderContent keys)
    else if q = tmpPath path then none
    else fs q

/-! ## Engine: per-file diff and the sync pass -/

/-- The target key set of `sync_user_keys`: assignments whose public key
parses, in order; failing assignments are dropped. -/
def targetKeysOf (asgs : List KeyAssignment) : List SshKey :=
  asgs.filterMap (fun a => SshKey.parse a.public_key)

/-- Number of assignments whose public key fails to parse (each increments
the per-file error counter). -/
def parseErrorCount (asgs : List KeyAssignment) : Nat :=
  (asgs.filter (fun a => (SshKey.parse a.public_key).isNone)).length

/-- `keys_to_add`: target keys whose fingerprint matches no existing key. -/
def keysToAdd (existing target : List SshKey) : List SshKey :=
  target.filter (fun t => !(existing.any (fun e => e.fingerprint == t.fingerprint)))

/-- `keys_to_remove`: existing keys whose fingerprint matches no target key. -/
def keysToRemove (existing target : List SshKey) : List SshKey :=
  existing.filter (fun e => !(target.any (fun t => t.fingerprint == e.fingerprint)))

/-- `SshKeyManager::sync_user_keys` for one file: read, diff, and either
no-op, dry-run report, or write.  Returns the per-file statistics and the
resulting filesystem; `none` models the per-file error path. -/
def syncUserKeys (fs : FileSystem) (f : AuthorizedKeysFile)
    (asgs : List KeyAssignment) (dryRun : Bool) :
    Option (KeySyncStats × FileSystem) :=
  match readAuthorizedKeys fs f with
  | none => none
  | some existing =>
    let target := targetKeysOf asgs
    let toAdd := keysToAdd existing target
    let toRemove := keysToRemove existing target
    let stats : KeySyncStats :=
      { users_processed := 1, keys_added := toAdd.length,
        keys_removed := toRemove.length, files_updated := 0,
        errors := parseErrorCount asgs }
    if toAdd.isEmpty && toRemove.isEmpty then some (stats, fs)
    else if dryRun then some ({ stats with files_updated := 1 }, fs)
    else some ({ stats with files_updated := 1 }, writeFsEffect fs f.path target)

/-- One iteration of the loop in `sync_ssh_keys`: `users_processed` always
increments; on success the per-file added/removed counts are accumulated
and a positive `files_updated` adds one, while the per-file `errors`
counter is discarded; on failure the aggregate error counter adds one. -/
def syncStep (fs : FileSystem) (f : AuthorizedKeysFile)
    (asgs : List KeyAssignment) (dryRun : Bool) : KeySyncStats × FileSystem :=
  match syncUserKeys fs f (asgs.filter (fun a => a.username == f.username)) dryRun with
  | some (st, fs') =>
    ({ users_processed := 1, keys_added := st.keys_added,
       keys_removed := st.keys_removed,
       files_updated := if st.files_updated > 0 then 1 else 0,
       errors := 0 }, fs')
  | none =>
    ({ users_processed := 1, keys_added := 0, keys_removed := 0,
       files_updated := 0, errors := 1 }, fs)

/-- Pointwise sum of statistics. -/
def addStats (s t : KeySyncStats) : KeySyncStats :=
  { users_processed := s.users_processed + t.users_processed,
    keys_added := s.keys_added + t.keys_added,
    keys_removed := s.keys_removed + t.keys_removed,
    files_updated := s.files_updated + t.files_updated,
    errors := s.errors + t.errors }

/-- The empty statistics record. -/
def zeroStats : KeySyncStats :=
  { users_processed := 0, keys_added := 0, keys_removed := 0,
    files_updated := 0, errors := 0 }

/-- The main loop of `sync_ssh_keys`: files processed left to right, the
filesystem threaded through, statistics summed. -/
def syncFiles (fs : FileSystem) (asgs : List KeyAssignment) (dryRun : Bool) :
    List AuthorizedKeysFile → KeySyncStats × FileSystem
  | [] => (zeroStats, fs)
  | f :: rest =>
    let (st, fs') := syncStep fs f asgs dryRun
    let (sts, fs'') := syncFiles fs' asgs dryRun rest
    (addStats st sts, fs'')

/-- `SshKeyManager::sync_ssh_keys`: group assignments by user, discover all
candidate files, synchronise each.  The source's unused `user_mode`
parameter is omitted. -/
def syncSshKeys (fs : FileSystem) (config : Option String)
    (users : List UserInfo) (assignments : List KeyAssignment)
    (dryRun : Bool) : KeySyncStats × FileSystem :=
  syncFiles fs assignments dryRun
    (discoverAuthorizedKeysFiles fs (getAuthorizedKeysPatterns config) users)

/-- The number of files along a sync pass whose per-file processing failed
outright (the `Err` arm of the loop in `sync_ssh_keys`), following the same
filesystem threading as `syncFiles`. -/
def failedFileCount (fs : FileSystem) (asgs : List KeyAssignment)
    (dryRun : Bool) : List AuthorizedKeysFile → Nat
  | [] => 0
  | f :: rest =>
    (if (syncUserKeys fs f (asgs.filter (fun a => a.username == f.username))
          dryRun).isSome then 0 else 1) +
    failedFileCount (syncStep fs f asgs dryRun).2 asgs dryRun rest

/-! ## Operation-level model of `write_authorized_keys_file`

For the atomicity and permission claims the write path is modelled one
syscall at a time: the function emits a trace of filesystem operations,
and a small-step interpreter applies them to a state that tracks file
contents and modes and directory modes.  Ownership changes are advisory
in the source (failures only warn) and are not part of the state. -/

/-- A file entry: contents and permission bits. -/
structure FileEnt where
  content : String
  mode : Nat
deriving DecidableEq, Repr

/-- Filesystem state for the write path: files with contents and modes,
directories with modes. -/
structure FsState where
  files : String → Option FileEnt
  dirs : String → Option Nat

/-- Mode bits of a freshly created directory (0o755 before any chmod). -/
def defaultDirMode : Nat := 0o755

/-- Mode bits applied only when the truncating create makes a fresh file
(0o666 masked by a conventional umask of 022, before any chmod);
group- and world-readable, hence over-permissive for authorized_keys. -/
def defaultFileMode : Nat := 0o644

/-- The filesystem operations issued by the write path, in source order. -/
inductive FsOp where
  | mkDirAll (p : String)
  | setDirMode (p : String) (m : Nat)
  | createFile (p : String)
  | writeAll (p : String) (content : String)
  | setFileMode (p : String) (m : Nat)
  | rename (src dst : String)
deriving DecidableEq, Repr

/-- Apply one operation to the state.  `createFile` (Rust `File::create`,
i.e. open with `O_CREAT|O_TRUNC`) truncates a pre-existing file in place,
preserving its mode, and applies the default mode only when creating a
fresh file; `rename` moves content and mode atomically (a no-op when
source equals target). -/
def applyOp (s : FsState) : FsOp → FsState
  | .mkDirAll p =>
    if (s.dirs p).isSome then s
    else { s with dirs := fun q => if q = p then some defaultDirMode else s.dirs q }
  | .setDirMode p m =>
    { s with dirs := fun q => if q = p then (s.dirs p).map (fun _ => m) else s.dirs q }
  | .createFile p =>
    { s with files := fun q =>
        if q = p then
          match s.files p with
          | some e => some ⟨"", e.mode⟩
          | none => some ⟨"", defaultFileMode⟩
        else s.files q }
  | .writeAll p c =>
    { s with files := fun q =>
        if q = p then (s.files p).map (fun e => ⟨c, e.mode⟩) else s.files q }
  | .setFileMode p m =>
    { s with files := fun q =>
        if q = p then (s.files p).map (fun e => ⟨e.content, m⟩) else s.files q }
  | .rename src dst =>
    if src = dst then s
    else { s with files := fun q =>
        if q = dst then s.files src
        else if q = src then none
        else s.files q }

/-- Run a trace of operations. -/
def runOps (s : FsState) (ops : List FsOp) : FsState :=
  ops.foldl applyOp s

/-- The operation trace of `SshKeyManager::write_authorized_keys_file`:
ensure the parent directory exists, chmod it to 0o700, create and fill the
sibling temporary file, chmod it to 0o600, then rename it over the target.
`none` models the error on a path without a parent. -/
def writeAuthorizedKeysTrace (s : FsState) (path : String) (keys : List SshKey) :
    Option (List FsOp) :=
  match parentDir path with
  | none => none
  | some d =>
    some ((if (s.dirs d).isSome then [] else [FsOp.mkDirAll d]) ++
      [FsOp.setDirMode d 0o700,
       FsOp.createFile (tmpPath path),
       FsOp.writeAll (tmpPath path) (renderContent keys),
       FsOp.setFileMode (tmpPath path) 0o600,
       FsOp.rename (tmpPath path) path])

/-! ## Concrete inputs used by witnesses and counterexamples -/

/-- An empty filesystem. -/
def fsEmpty : FileSystem := fun _ => none

/-- A regular account. -/
def bobUser : UserInfo := ⟨"bob", 1000, some "/home/bob"⟩

/-- The key `ssh-ed25519 AQ== bob@x` as parsed (payload byte `0x01`). -/
def keyAQ : SshKey :=
  ⟨"ssh-ed25519", "AQ==", some "bob@x",
   "SHA256:S/USLzRFVMU73i67jNK349FgCtYxw4Wl18ziPHeFRZo="⟩

/-- The key `ssh-ed25519 AA== old` as parsed (payload byte `0x00`). -/
def keyAA : SshKey :=
  ⟨"ssh-ed25519", "AA==", some "old",
   "SHA256:bjQLnP+zepicpUTmu3gKLHiQHT+zNzh2hRGjBhevoB0="⟩

/-- A well-formed assignment for `bob`. -/
def asgGood : KeyAssignment :=
  ⟨"bob", "SHA256:S/USLzRFVMU73i67jNK349FgCtYxw4Wl18ziPHeFRZo=",
   "ssh-ed25519 AQ== bob@x", "ssh-ed25519", none, "a1"⟩

/-- An assignment whose public key (a single field) fails to parse. -/
def asgBad : KeyAssignment := ⟨"bob", "fp", "x", "ssh-rsa", none, "a2"⟩

/-- An assignment matching the existing key `AA==`. -/
def asgSame : KeyAssignment :=
  ⟨"bob", "SHA256:bjQLnP+zepicpUTmu3gKLHiQHT+zNzh2hRGjBhevoB0=",
   "ssh-ed25519 AA== old", "ssh-ed25519", none, "a4"⟩

/-- An sshd_config listing the same pattern twice on one directive line. -/
def cfgDup : String :=
  "AuthorizedKeysFile .ssh/authorized_keys .ssh/authorized_keys\n"

/-- A filesystem where bob's authorized_keys holds the old key `AA==`. -/
def fsBobOld : FileSystem :=
  fun p => if p = "/home/bob/.ssh/authorized_keys"
           then some "ssh-ed25519 AA== old\n" else none

/-- Bob's authorized_keys location, as discovered when it exists. -/
def bobFile : AuthorizedKeysFile :=
  ⟨"/home/bob/.ssh/authorized_keys", "bob", 1000, true⟩

/-- Bob's authorized_keys location, as discovered when it is absent. -/
def bobFileAbsent : AuthorizedKeysFile :=
  ⟨"/home/bob/.ssh/authorized_keys", "bob", 1000, false⟩

/-- A target path whose name already ends in `.tmp`, so the computed
temporary path coincides with it. -/
def tmpColl : String := "/home/u/.ssh/keys.tmp"

/-- Initial state for the write counterexample: the target already exists
with private mode, and its parent directory exists. -/
def stateColl : FsState :=
  { files := fun p => if p = tmpColl then some ⟨"old", 0o600⟩ else none,
    dirs := fun p => if p = "/home/u/.ssh" then some 0o700 else none }

/-- An entirely empty filesystem state for the write-path witness. -/
def stateEmpty : FsState := { files := fun _ => none, dirs := fun _ => none }

/-- The spec's description of token expansion, as a standalone function:
replace every occurrence of `%h` with the home directory, then every
occurrence of `%u` with the username, then every occurrence of `%%` with a
literal `%` (the order in which the spec lists the tokens). -/
def expandTokensSpec (pattern username homeDir : String) : String :=
  String.mk (replace2 '%' '%' ['%']
    (replace2 '%' 'u' username.data
      (replace2 '%' 'h' homeDir.data pattern.data)))

/-- The spec's path resolution: the expanded string is absolute when it
starts with `/`, otherwise resolved relative to the home directory. -/
def resolvePatternSpec (homeDir expanded : String) : String :=
  if expanded.data.head? = some '/' then expanded else joinPath homeDir expanded

/-- The record produced by discovery for one (user, pattern) pair. -/
def discoveredRecord (fs : FileSystem) (u : UserInfo) (pat : String) :
    AuthorizedKeysFile :=
  let path := resolvePatternSpec (userHomeDir u)
    (expandTokensSpec pat u.username (userHomeDir u))
  { path := path, username := u.username, uid := u.uid,
    exists' := (fs path).isSome }

/-! ## Helper lemmas on tokenisation -/

theorem dropWhile_head_not {p : Char → Bool} {l : List Char} {c : Char}
    (h : (l.dropWhile p).head? = some c) : p c = false := by
  induction l with
  | nil => simp [List.dropWhile] at h
  | cons a as ih =>
    by_cases hpa : p a
    · simpa [List.dropWhile, hpa] using ih (by simpa [List.dropWhile, hpa] using h)
    · simp [List.dropWhile, hpa] at h
      simpa [h] using hpa

theorem dropTrailWs_head? {l : List Char} {c : Char}
    (h : (dropTrailWs l).head? = some c) : l.head? = some c := by
  cases l with
  | nil => simp [dropTrailWs] at h
  | cons a as =>
    rw [dropTrailWs] at h
    rcases hr : dropTrailWs as with _ | ⟨b, bs⟩
    · rw [hr] at h
      by_cases hw : wsChar a
      · simp [hw] at h
      · simp [hw] at h
        simp [h]
    · rw [hr] at h
      simp at h
      simp [h]

theorem trimChars_head_not_ws {l : List Char} {c : Char}
    (h : (trimChars l).head? = some c) : wsChar c = false :=
  dropWhile_head_not (dropTrailWs_head? h)

theorem splitWsAux_mem_ne_nil {l acc : List Char} {t : List Char}
    (h : t ∈ splitWsAux l acc) : t ≠ [] := by
  induction l generalizing acc with
  | nil =>
    rw [splitWsAux] at h
    by_cases ha : acc.isEmpty <;> simp [ha] at h
    subst h
    simp
    intro hn
    simp [hn] at ha
  | cons c cs ih =>
    rw [splitWsAux] at h
    by_cases hw : wsChar c
    · by_cases ha : acc.isEmpty
      · exact ih (by simpa [hw, ha] using h)
      · simp [hw, ha] at h
        rcases h with h | h
        · subst h
          simp
          intro hn
          simp [hn] at ha
        · exact ih h
    · exact ih (by simpa [hw] using h)

theorem splitWsAux_acc_cons (acc : List Char) (l : List Char) (h : acc ≠ []) :
    ∃ t ts, splitWsAux l acc = (acc.reverse ++ t) :: ts := by
  induction l generalizing acc with
  | nil =>
    refine ⟨[], [], ?_⟩
    rw [splitWsAux]
    simp [h]
  | cons c cs ih =>
    rw [splitWsAux]
    by_cases hw : wsChar c
    · exact ⟨[], splitWsAux cs [], by simp [hw, h]⟩
    · obtain ⟨t, ts, ht⟩ := ih (c :: acc) (by simp)
      exact ⟨c :: t, ts, by simp [hw, ht]⟩

theorem splitWs_cons_head {c : Char} (cs : List Char) (h : wsChar c = false) :
    ∃ t ts, splitWs (c :: cs) = (c :: t) :: ts := by
  obtain ⟨t, ts, ht⟩ := splitWsAux_acc_cons [c] cs (by simp)
  exact ⟨t, ts, by simp [splitWs, splitWsAux, h, ht]⟩

theorem splitWs_mem_ne_nil {l : List Char} {t : List Char}
    (h : t ∈ splitWs l) : t ≠ [] :=
  splitWsAux_mem_ne_nil h

/-! ## Helper lemmas on `SshKey.parse` -/

theorem allowed_head {t : List Char}
    (h : validateKeyType (String.mk t) = true) :
    t.head? = some 's' ∨ t.head? = some 'e' := by
  have hm : String.mk t ∈ allowedKeyTypes := by
    simpa [validateKeyType, List.elem_iff] using h
  simp only [allowedKeyTypes, List.mem_cons, List.not_mem_nil, or_false] at hm
  rcases hm with h | h | h | h | h | h | h | h <;>
    (have hdata := congrArg String.data h; simp only [] at hdata;
     rw [hdata]; simp)

theorem parse_eq_some {line : String} {t d : List Char}
    {rest : List (List Char)} {bytes : List Nat}
    (hs : splitWs (trimChars line.data) = t :: d :: rest)
    (ht : validateKeyType (String.mk t) = true)
    (hd : b64Decode d = some bytes) :
    SshKey.parse line = some ⟨String.mk t, String.mk d, commentOf rest,
      String.mk ("SHA256:".data ++ b64Encode (sha256 bytes))⟩ := by
  have hne : trimChars line.data ≠ [] := by
    intro he
    rw [he] at hs
    simp [splitWs, splitWsAux] at hs
  obtain ⟨c, cs, hcs⟩ : ∃ c cs, trimChars line.data = c :: cs := by
    cases hl : trimChars line.data with
    | nil => exact absurd hl hne
    | cons c cs => exact ⟨c, cs, rfl⟩
  have hcw : wsChar c = false := trimChars_head_not_ws (by rw [hcs]; rfl)
  obtain ⟨t', ts, ht'⟩ := splitWs_cons_head cs hcw
  rw [hcs] at hs
  have hts : t = c :: t' := by
    rw [ht'] at hs
    exact (List.cons.injEq _ _ _ _ ▸ hs).1.symm
  have hch : c = 's' ∨ c = 'e' := by
    rcases allowed_head ht with h | h <;> rw [hts] at h <;> simp at h <;>
      [left; right] <;> exact h
  have hhash : c ≠ '#' := by rcases hch with h | h <;> simp [h]
  rw [SshKey.parse, hcs, hs]
  simp only [List.isEmpty_cons, Bool.false_or, List.head?_cons,
    decide_eq_true_eq, Option.some.injEq]
  rw [if_neg (by simpa using hhash)]
  rw [if_pos ht, if_pos (by simp [validateKeyData, hd])]
  simp [calculateFingerprint, hd]

theorem parse_some_inv {line : String} {k : SshKey}
    (h : SshKey.parse line = some k) :
    ∃ t d rest bytes,
      splitWs (trimChars line.data) = t :: d :: rest ∧
      b64Decode d = some bytes ∧
      validateKeyType (String.mk t) = true ∧
      k = ⟨String.mk t, String.mk d, commentOf rest,
           String.mk ("SHA256:".data ++ b64Encode (sha256 bytes))⟩ := by
  rw [SshKey.parse] at h
  split at h
  · exact absurd h (by simp)
  · split at h
    next t d rest hsplit =>
      dsimp only [] at h
      by_cases hvt : validateKeyType (String.mk t) = true
      case neg => rw [if_neg hvt] at h; exact absurd h (by simp)
      rw [if_pos hvt] at h
      by_cases hvd : validateKeyData d = true
      case neg => rw [if_neg hvd] at h; exact absurd h (by simp)
      rw [if_pos hvd] at h
      rcases hdec : b64Decode d with _ | bytes
      · unfold validateKeyData at hvd
        rw [hdec] at hvd
        exact absurd hvd (by simp)
      · have hcalc : calculateFingerprint d =
            some (String.mk ("SHA256:".data ++ b64Encode (sha256 bytes))) := by
          unfold calculateFingerprint
          rw [hdec]
        rw [hcalc] at h
        simp only [Option.some.injEq] at h
        exact ⟨t, d, rest, bytes, hsplit, hdec, hvt, h.symm⟩
    next hother => exact absurd h (by simp)

/-! ## C3: exact failure conditions of `SshKey::parse` -/

/-- C3: `SshKey::parse` fails if and only if the trimmed line is empty or
starts with `#`, or has fewer than two whitespace-separated fields, or its
first field is not in the fixed allow-list of OpenSSH algorithm identifiers
(`validateKeyType`), or its second field is not valid standard base64; on
every other line it succeeds. -/
theorem parse_failure_characterization (line : String) :
    SshKey.parse line = none ↔
      trimChars line.data = [] ∨
      (trimChars line.data).head? = some '#' ∨
      (splitWs (trimChars line.data)).length < 2 ∨
      validateKeyType (String.mk ((splitWs (trimChars line.data)).getD 0 [])) = false ∨
      b64Decode ((splitWs (trimChars line.data)).getD 1 []) = none := by
  constructor
  · intro h
    by_contra hcon
    push_neg at hcon
    obtain ⟨h1, h2, h3, h4, h5⟩ := hcon
    rcases hs : splitWs (trimChars line.data) with _ | ⟨t, _ | ⟨d, rest⟩⟩
    · rw [hs] at h3
      simp at h3
    · rw [hs] at h3
      simp at h3
    · rw [hs] at h4 h5
      simp only [List.getD_cons_zero, List.getD_cons_succ] at h4 h5
      have hvt : validateKeyType (String.mk t) = true := by
        cases hb : validateKeyType (String.mk t)
        · exact absurd hb h4
        · rfl
      rcases hb : b64Decode d with _ | bytes
      · exact h5 hb
      · rw [parse_eq_some hs hvt hb] at h
        exact absurd h (by simp)
  · intro h
    rcases h with h | h | h | h | h
    · simp [SshKey.parse, h]
    · simp [SshKey.parse, h]
    · rcases hs : splitWs (trimChars line.data) with _ | ⟨t, _ | ⟨d, rest⟩⟩
      · simp [SshKey.parse, hs]
      · simp [SshKey.parse, hs]
      · rw [hs] at h
        simp at h
        omega
    · rcases hs : splitWs (trimChars line.data) with _ | ⟨t, _ | ⟨d, rest⟩⟩
      · simp [SshKey.parse, hs]
      · simp [SshKey.parse, hs]
      · rw [hs] at h
        simp only [List.getD_cons_zero] at h
        simp [SshKey.parse, hs, h]
    · rcases hs : splitWs (trimChars line.data) with _ | ⟨t, _ | ⟨d, rest⟩⟩
      · simp [SshKey.parse, hs]
      · simp [SshKey.parse, hs]
      · rw [hs] at h
        simp only [List.getD_cons_zero, List.getD_cons_succ] at h
        simp [SshKey.parse, hs, validateKeyData, h]

/-! ## C7: round-trip of parsing and rendering -/

/-- C7: on every line whose (trimmed) whitespace-separated fields are an
allow-listed type, a valid standard-base64 data field, and any remaining
comment fields, `parse` succeeds, and `to_string` on the result reproduces
the type, the data, and the comment fields joined by single spaces — the
whole line with whitespace runs normalised to single spaces.  The comment
is the remaining fields joined by single spaces, absent when there are
only two fields. -/
theorem parse_roundtrip (line : String) (t d : List Char)
    (rest : List (List Char)) (bytes : List Nat)
    (hs : splitWs (trimChars line.data) = t :: d :: rest)
    (ht : validateKeyType (String.mk t) = true)
    (hd : b64Decode d = some bytes) :
    ∃ k, SshKey.parse line = some k ∧
      k.key_type = String.mk t ∧
      k.key_data = String.mk d ∧
      k.comment = commentOf rest ∧
      SshKey.toString k = String.mk (joinSpace (t :: d :: rest)) := by
  refine ⟨_, parse_eq_some hs ht hd, rfl, rfl, rfl, ?_⟩
  cases rest with
  | nil =>
    show String.mk t ++ " " ++ String.mk d = String.mk (joinSpace [t, d])
    have happ : String.mk t ++ " " ++ String.mk d =
        String.mk ((t ++ [' ']) ++ d) := rfl
    rw [happ]
    exact congrArg String.mk (by simp [joinSpace])
  | cons r rs =>
    show String.mk t ++ " " ++ String.mk d ++ " " ++
        String.mk (joinSpace (r :: rs)) =
        String.mk (joinSpace (t :: d :: r :: rs))
    have happ : String.mk t ++ " " ++ String.mk d ++ " " ++
        String.mk (joinSpace (r :: rs)) =
        String.mk ((((t ++ [' ']) ++ d) ++ [' ']) ++ joinSpace (r :: rs)) := rfl
    rw [happ]
    exact congrArg String.mk (by simp [joinSpace])

/-- C7 witness: a concrete line with irregular whitespace and a two-field
comment round-trips to the normalised form. -/
theorem parse_roundtrip_witness :
    ∃ k, SshKey.parse "  ssh-rsa \t AA==  hello   world " = some k ∧
      SshKey.toString k = "ssh-rsa AA== hello world" := by
  obtain ⟨k, hk, _, _, _, hts⟩ :=
    parse_roundtrip "  ssh-rsa \t AA==  hello   world "
      "ssh-rsa".data "AA==".data ["hello".data, "world".data] [0]
      (by decide) (by decide) (by decide)
  exact ⟨k, hk, by rw [hts]; rfl⟩

/-! ## C10: matching degenerates to fingerprint equality -/

/-- C10: for every successfully parsed key and every assignment whose
`public_key` has fewer than two whitespace-separated fields,
`matches_assignment` holds exactly when the fingerprints are equal: the
secondary (type, data) comparison compares the key's data against the
empty string, and parsed key data is a nonempty whitespace-free token. -/
theorem matches_assignment_fingerprint_only (line : String) (k : SshKey)
    (a : KeyAssignment) (hp : SshKey.parse line = some k)
    (hf : (splitWs a.public_key.data).length < 2) :
    k.matchesAssignment a = true ↔ k.fingerprint = a.fingerprint := by
  constructor
  · intro h
    rw [SshKey.matchesAssignment] at h
    by_cases hfp : (k.fingerprint == a.fingerprint) = true
    · exact eq_of_beq hfp
    · rw [if_neg hfp] at h
      have hd1 : (splitWs a.public_key.data).getD 1 [] = [] :=
        List.getD_eq_default _ _ (by omega)
      rw [hd1] at h
      obtain ⟨t, d, rest, bytes, hs, _, _, hk⟩ := parse_some_inv hp
      have hdne : d ≠ [] := splitWs_mem_ne_nil (l := trimChars line.data)
        (by rw [hs]; simp)
      rw [hk] at h
      simp at h
      exact absurd (congrArg String.data h.2) hdne
  · intro h
    rw [SshKey.matchesAssignment, if_pos (by simp [h])]

/-- C10 witness: the parsed key `ssh-ed25519 AQ== bob@x` matches an
assignment carrying its fingerprint but a single-field public key. -/
theorem matches_assignment_fingerprint_only_witness :
    SshKey.matchesAssignment keyAQ
      ⟨"bob", "SHA256:S/USLzRFVMU73i67jNK349FgCtYxw4Wl18ziPHeFRZo=",
       "x", "ssh-ed25519", none, "a3"⟩ = true :=
  (matches_assignment_fingerprint_only "ssh-ed25519 AQ== bob@x" keyAQ
    ⟨"bob", "SHA256:S/USLzRFVMU73i67jNK349FgCtYxw4Wl18ziPHeFRZo=",
     "x", "ssh-ed25519", none, "a3"⟩ (by decide) (by decide)).mpr rfl

/-! ## C4: the fingerprint formula and payload-only dependence -/

/-- C4: the fingerprint of a successfully parsed key is `SHA256:` followed
by the standard-base64 encoding of the SHA-256 digest of the base64-decoded
key data; it is a (deterministic, pure) function of the decoded payload
alone, so two parsed keys with the same key data — whatever their types or
comments — have the same fingerprint. -/
theorem fingerprint_formula :
    (∀ d bytes, b64Decode d = some bytes →
      calculateFingerprint d =
        some (String.mk ("SHA256:".data ++ b64Encode (sha256 bytes)))) ∧
    (∀ d₁ d₂, b64Decode d₁ = b64Decode d₂ →
      calculateFingerprint d₁ = calculateFingerprint d₂) ∧
    (∀ line k, SshKey.parse line = some k →
      calculateFingerprint k.key_data.data = some k.fingerprint) ∧
    (∀ l₁ l₂ k₁ k₂, SshKey.parse l₁ = some k₁ → SshKey.parse l₂ = some k₂ →
      k₁.key_data = k₂.key_data → k₁.fingerprint = k₂.fingerprint) := by
  have hform : ∀ d bytes, b64Decode d = some bytes →
      calculateFingerprint d =
        some (String.mk ("SHA256:".data ++ b64Encode (sha256 bytes))) := by
    intro d bytes hdec
    unfold calculateFingerprint
    rw [hdec]
  have hparse : ∀ line k, SshKey.parse line = some k →
      calculateFingerprint k.key_data.data = some k.fingerprint := by
    intro line k hp
    obtain ⟨t, d, rest, bytes, _, hdec, _, hk⟩ := parse_some_inv hp
    rw [hk]
    exact hform d bytes hdec
  refine ⟨hform, ?_, hparse, ?_⟩
  · intro d₁ d₂ h
    unfold calculateFingerprint
    rw [h]
  · intro l₁ l₂ k₁ k₂ h₁ h₂ hdata
    have e₁ := hparse l₁ k₁ h₁
    have e₂ := hparse l₂ k₂ h₂
    rw [hdata] at e₁
    rw [e₁] at e₂
    exact Option.some.inj e₂

/-- C4 witness: the fingerprint of payload `0x01` (`AQ==`), computed via
the formula. -/
theorem fingerprint_formula_witness :
    calculateFingerprint "AQ==".data =
      some "SHA256:S/USLzRFVMU73i67jNK349FgCtYxw4Wl18ziPHeFRZo=" := by
  have h := fingerprint_formula.1 "AQ==".data [1] (by decide)
  rw [h]
  rfl

/-! ## C2: the per-file diff and the no-change fast path -/

/-- C2: `keys_to_add` is exactly the target keys whose fingerprint equals
no existing key's fingerprint and `keys_to_remove` is exactly the existing
keys whose fingerprint equals no target key's fingerprint, both preserving
their source order (sublists of their sources); and when both are empty
`sync_user_keys` leaves the filesystem untouched and reports the file as
not updated. -/
theorem diff_exactness_and_noop :
    (∀ existing target k, k ∈ keysToAdd existing target ↔
      k ∈ target ∧ ∀ e ∈ existing, e.fingerprint ≠ k.fingerprint) ∧
    (∀ existing target, (keysToAdd existing target).Sublist target) ∧
    (∀ existing target k, k ∈ keysToRemove existing target ↔
      k ∈ existing ∧ ∀ t ∈ target, t.fingerprint ≠ k.fingerprint) ∧
    (∀ existing target, (keysToRemove existing target).Sublist existing) ∧
    (∀ fs f asgs dry existing, readAuthorizedKeys fs f = some existing →
      keysToAdd existing (targetKeysOf asgs) = [] →
      keysToRemove existing (targetKeysOf asgs) = [] →
      syncUserKeys fs f asgs dry =
        some (⟨1, 0, 0, 0, parseErrorCount asgs⟩, fs)) := by
  refine ⟨?_, ?_, ?_, ?_, ?_⟩
  · intro existing target k
    simp [keysToAdd, List.mem_filter]
  · intro existing target
    exact List.filter_sublist _
  · intro existing target k
    simp [keysToRemove, List.mem_filter]
  · intro existing target
    exact List.filter_sublist _
  · intro fs f asgs dry existing hread hadd hrem
    simp [syncUserKeys, hread, hadd, hrem]

set_option maxRecDepth 100000 in
/-- C2 witness: an existing file holding exactly the assigned key is a
no-op — nothing added, nothing removed, file not updated, filesystem
unchanged. -/
theorem diff_exactness_and_noop_witness :
    syncUserKeys fsBobOld bobFile [asgSame] false =
      some (⟨1, 0, 0, 0, 0⟩, fsBobOld) := by
  have h := diff_exactness_and_noop.2.2.2.2 fsBobOld bobFile [asgSame] false
    [keyAA] (by decide) (by decide) (by decide)
  exact h

/-- `users_processed` increments exactly once per processed file. -/
theorem syncFiles_users_processed (fs : FileSystem) (asgs : List KeyAssignment)
    (dry : Bool) (files : List AuthorizedKeysFile) :
    (syncFiles fs asgs dry files).1.users_processed = files.length := by
  induction files generalizing fs with
  | nil => rfl
  | cons f rest ih =>
    rw [syncFiles]
    dsimp only []
    simp only [addStats]
    rw [ih]
    have h1 : (syncStep fs f asgs dry).1.users_processed = 1 := by
      rw [syncStep]
      split <;> rfl
    rw [h1]
    simp [Nat.add_comm]

/-! ## C1: parse failures are dropped and counted, but the per-file error
counts never reach the aggregate (corrected) -/

/-- C1 counterexample: a sync pass over one user with one unparsable
assignment returns `errors = 0` — the per-assignment parse error is counted
in the per-file statistics but discarded during aggregation, refuting the
claim that parse errors are aggregated into the returned `errors` field. -/
theorem sync_error_aggregation_counterexample :
    (SshKey.parse asgBad.public_key).isNone = true ∧
    (syncSshKeys fsEmpty none [bobUser] [asgBad] false).1.errors = 0 := by
  constructor
  · decide
  · decide

/-- C1 (amended): every target key comes from a successfully parsed
assignment (failing ones are dropped), the per-file statistics count one
error per unparsable assignment, and processing never aborts — every
discovered file is processed and `users_processed` counts them all — but
the aggregate `errors` field of the returned stats counts only files whose
processing failed outright, not per-assignment parse errors. -/
theorem sync_error_accounting :
    (∀ asgs k, k ∈ targetKeysOf asgs ↔
      ∃ a ∈ asgs, SshKey.parse a.public_key = some k) ∧
    (∀ fs f asgs dry st fs', syncUserKeys fs f asgs dry = some (st, fs') →
      st.errors = parseErrorCount asgs) ∧
    (∀ fs asgs dry files, (syncFiles fs asgs dry files).1.errors =
      failedFileCount fs asgs dry files) ∧
    (∀ fs asgs dry files, (syncFiles fs asgs dry files).1.users_processed =
      files.length) := by
  refine ⟨?_, ?_, ?_, ?_⟩
  · intro asgs k
    simp [targetKeysOf, List.mem_filterMap]
  · intro fs f asgs dry st fs' h
    rw [syncUserKeys] at h
    split at h
    · exact absurd h (by simp)
    · dsimp only [] at h
      split at h
      · simp only [Option.some.injEq, Prod.mk.injEq] at h
        rw [← h.1]
      · split at h
        · simp only [Option.some.injEq, Prod.mk.injEq] at h
          rw [← h.1]
        · simp only [Option.some.injEq, Prod.mk.injEq] at h
          rw [← h.1]
  · intro fs asgs dry files
    induction files generalizing fs with
    | nil => rfl
    | cons f rest ih =>
      rw [syncFiles, failedFileCount]
      dsimp only []
      simp only [addStats]
      rw [ih]
      congr 1
      rw [syncStep]
      split
      next st fs' heq => simp [heq]
      next heq => simp [heq]
  · exact syncFiles_users_processed

/-- C1 witness: one unparsable assignment yields a per-file error count of
one. -/
theorem sync_error_accounting_witness :
    (⟨1, 0, 0, 0, 1⟩ : KeySyncStats).errors = parseErrorCount [asgBad] := by
  have h := sync_error_accounting.2.1 fsEmpty bobFileAbsent [asgBad] false
    ⟨1, 0, 0, 0, 1⟩ fsEmpty (by rfl)
  exact h

/-! ## C5: pattern token expansion and path resolution -/

/-- Pattern expansion always succeeds and equals the spec's description:
the three token replacements in the listed order, then absolute/relative
resolution. -/
theorem expand_eq_some (p u h : String) :
    expandAuthorizedKeysPattern p u h =
      some (resolvePatternSpec h (expandTokensSpec p u h)) := rfl

/-- C5: pattern expansion replaces every occurrence of `%h` with the home
directory, every occurrence of `%u` with the username, and every occurrence
of `%%` with a literal `%` (applied in that order), and the expanded string
is an absolute path when it starts with `/`, otherwise resolved relative to
the home directory; with the spec's four concrete examples. -/
theorem pattern_expansion_spec :
    (∀ p u h, expandAuthorizedKeysPattern p u h =
      some (resolvePatternSpec h (expandTokensSpec p u h))) ∧
    expandAuthorizedKeysPattern ".ssh/authorized_keys" "alice" "/home/alice" =
      some "/home/alice/.ssh/authorized_keys" ∧
    expandAuthorizedKeysPattern "/etc/ssh/keys/%u" "alice" "/home/alice" =
      some "/etc/ssh/keys/alice" ∧
    expandAuthorizedKeysPattern "%h/.ssh/authorized_keys" "alice" "/home/alice" =
      some "/home/alice/.ssh/authorized_keys" ∧
    expandAuthorizedKeysPattern "a%%b" "alice" "/home/alice" =
      some "/home/alice/a%b" :=
  ⟨expand_eq_some, by decide, by decide, by decide, by decide⟩

/-! ## C9: discovery is the users × patterns cross product and
`users_processed` counts discovered files -/

/-- For one user, the per-pattern `filterMap` of discovery is a plain map:
expansion never fails. -/
theorem filterMap_expand (fs : FileSystem) (u : UserInfo)
    (patterns : List String) :
    patterns.filterMap (fun pat =>
      (expandAuthorizedKeysPattern pat u.username (userHomeDir u)).map
        (fun path =>
          ({ path := path, username := u.username, uid := u.uid,
             exists' := (fs path).isSome } : AuthorizedKeysFile))) =
    patterns.map (discoveredRecord fs u) := by
  induction patterns with
  | nil => rfl
  | cons p ps ih =>
    rw [List.filterMap_cons, List.map_cons, expand_eq_some]
    simp only [Option.map_some']
    rw [ih]
    rfl

/-- Discovery unfolds to one record per (user, pattern) pair. -/
theorem discover_eq_cross (fs : FileSystem) (patterns : List String)
    (users : List UserInfo) :
    discoverAuthorizedKeysFiles fs patterns users =
      users.flatMap (fun u => patterns.map (discoveredRecord fs u)) := by
  rw [discoverAuthorizedKeysFiles]
  simp only [filterMap_expand]

/-- C9: the discovered file list is the full cross product of users and
patterns — one record per pair, with the pattern expanded against the
user's resolved home directory and tagged with current existence — and
`users_processed` in the returned statistics increments once per
discovered file, so a user with N patterns is counted N times. -/
theorem discovery_cross_product :
    (∀ fs patterns users,
      discoverAuthorizedKeysFiles fs patterns users =
        users.flatMap (fun u => patterns.map (discoveredRecord fs u))) ∧
    (∀ fs patterns users,
      (discoverAuthorizedKeysFiles fs patterns users).length =
        users.length * patterns.length) ∧
    (∀ fs config users asgs dry,
      (syncSshKeys fs config users asgs dry).1.users_processed =
        (discoverAuthorizedKeysFiles fs
          (getAuthorizedKeysPatterns config) users).length) := by
  refine ⟨discover_eq_cross, ?_, ?_⟩
  · intro fs patterns users
    rw [discover_eq_cross]
    induction users with
    | nil => simp
    | cons u us ih =>
      simp only [List.flatMap_cons, List.length_append, List.length_map, ih]
      rw [List.length_cons]
      ring
  · intro fs config users asgs dry
    exact syncFiles_users_processed _ _ _ _

/-! ## C6: dry-run behaviour (corrected) -/

/-- Reading depends on the filesystem only at the file's own path. -/
theorem readAuthorizedKeys_congr {fs₁ fs₂ : FileSystem}
    {f : AuthorizedKeysFile} (h : fs₁ f.path = fs₂ f.path) :
    readAuthorizedKeys fs₁ f = readAuthorizedKeys fs₂ f := by
  rw [readAuthorizedKeys, readAuthorizedKeys, h]

/-- A dry-run per-file sync never changes the filesystem. -/
theorem syncUserKeys_dry_fs {fs : FileSystem} {f : AuthorizedKeysFile}
    {asgs : List KeyAssignment} {st : KeySyncStats} {fs' : FileSystem}
    (h : syncUserKeys fs f asgs true = some (st, fs')) : fs' = fs := by
  rw [syncUserKeys] at h
  split at h
  · exact absurd h (by simp)
  · dsimp only [] at h
    split at h
    · simp only [Option.some.injEq, Prod.mk.injEq] at h
      exact h.2.symm
    · rw [if_pos rfl] at h
      simp only [Option.some.injEq, Prod.mk.injEq] at h
      exact h.2.symm

/-- A dry-run step keeps the filesystem. -/
theorem syncStep_dry_fs (fs : FileSystem) (f : AuthorizedKeysFile)
    (asgs : List KeyAssignment) : (syncStep fs f asgs true).2 = fs := by
  rw [syncStep]
  split
  next st fs' heq => exact syncUserKeys_dry_fs heq
  next heq => rfl

/-- A whole dry-run pass keeps the filesystem. -/
theorem syncFiles_dry_fs (fs : FileSystem) (asgs : List KeyAssignment)
    (files : List AuthorizedKeysFile) :
    (syncFiles fs asgs true files).2 = fs := by
  induction files generalizing fs with
  | nil => rfl
  | cons f rest ih =>
    rw [syncFiles]
    dsimp only []
    rw [syncStep_dry_fs, ih]

/-- A per-file sync only changes the file's own path and its temporary
sibling. -/
theorem syncUserKeys_frame {fs : FileSystem} {f : AuthorizedKeysFile}
    {asgs : List KeyAssignment} {dry : Bool} {st : KeySyncStats}
    {fs' : FileSystem} (h : syncUserKeys fs f asgs dry = some (st, fs'))
    (q : String) (h₁ : q ≠ f.path) (h₂ : q ≠ tmpPath f.path) :
    fs' q = fs q := by
  rw [syncUserKeys] at h
  split at h
  · exact absurd h (by simp)
  · dsimp only [] at h
    split at h
    · simp only [Option.some.injEq, Prod.mk.injEq] at h
      rw [← h.2]
    · split at h
      · simp only [Option.some.injEq, Prod.mk.injEq] at h
        rw [← h.2]
      · simp only [Option.some.injEq, Prod.mk.injEq] at h
        rw [← h.2, writeFsEffect]
        rw [if_neg h₁, if_neg h₂]

/-- A sync step only changes the file's own path and its temporary
sibling. -/
theorem syncStep_frame (fs : FileSystem) (f : AuthorizedKeysFile)
    (asgs : List KeyAssignment) (dry : Bool) (q : String)
    (h₁ : q ≠ f.path) (h₂ : q ≠ tmpPath f.path) :
    (syncStep fs f asgs dry).2 q = fs q := by
  rw [syncStep]
  split
  next st fs' heq => exact syncUserKeys_frame heq q h₁ h₂
  next heq => rfl

/-- When the two filesystems agree at the file's path, a dry step and a
real step report the same added/removed counts and the same
`files_updated` flag. -/
theorem syncStep_dry_real_stats (fs₁ fs₂ : FileSystem)
    {f : AuthorizedKeysFile} (asgs : List KeyAssignment)
    (h : fs₁ f.path = fs₂ f.path) :
    (syncStep fs₁ f asgs true).1.keys_added =
      (syncStep fs₂ f asgs false).1.keys_added ∧
    (syncStep fs₁ f asgs true).1.keys_removed =
      (syncStep fs₂ f asgs false).1.keys_removed ∧
    (syncStep fs₁ f asgs true).1.files_updated =
      (syncStep fs₂ f asgs false).1.files_updated := by
  have hread : readAuthorizedKeys fs₁ f = readAuthorizedKeys fs₂ f :=
    readAuthorizedKeys_congr h
  rcases hr : readAuthorizedKeys fs₂ f with _ | existing <;> rw [hr] at hread
  · simp [syncStep, syncUserKeys, hr, hread]
  · by_cases hemp : ((keysToAdd existing (targetKeysOf
        (asgs.filter (fun a => a.username == f.username)))).isEmpty &&
        (keysToRemove existing (targetKeysOf
        (asgs.filter (fun a => a.username == f.username)))).isEmpty) = true
    · simp [syncStep, syncUserKeys, hr, hread, hemp]
    · simp [syncStep, syncUserKeys, hr, hread, hemp]

/-- Under pairwise-distinct target paths (and no target path colliding with
an earlier file's temporary path), a dry pass and a real pass from
filesystems agreeing on every file's path report identical added/removed
counts and identical `files_updated`. -/
theorem syncFiles_dry_real_counts (asgs : List KeyAssignment) :
    ∀ (files : List AuthorizedKeysFile) (fs₀ fsr : FileSystem),
      (∀ f ∈ files, fsr f.path = fs₀ f.path) →
      List.Pairwise (fun a b => b.path ≠ a.path ∧ b.path ≠ tmpPath a.path) files →
      (syncFiles fs₀ asgs true files).1.keys_added =
        (syncFiles fsr asgs false files).1.keys_added ∧
      (syncFiles fs₀ asgs true files).1.keys_removed =
        (syncFiles fsr asgs false files).1.keys_removed ∧
      (syncFiles fs₀ asgs true files).1.files_updated =
        (syncFiles fsr asgs false files).1.files_updated := by
  intro files
  induction files with
  | nil => exact fun _ _ _ _ => ⟨rfl, rfl, rfl⟩
  | cons f rest ih =>
    intro fs₀ fsr hagree hpw
    rw [List.pairwise_cons] at hpw
    obtain ⟨hf, hpw'⟩ := hpw
    have hhead := syncStep_dry_real_stats fs₀ fsr asgs
      (hagree f (by simp)).symm
    have htail := ih fs₀ (syncStep fsr f asgs false).2
      (fun g hg => by
        rw [syncStep_frame fsr f asgs false g.path (hf g hg).1 (hf g hg).2]
        exact hagree g (by simp [hg]))
      hpw'
    rw [syncFiles, syncFiles]
    dsimp only []
    simp only [addStats]
    rw [syncStep_dry_fs]
    exact ⟨by rw [hhead.1, htail.1], by rw [hhead.2.1, htail.2.1],
           by rw [hhead.2.2, htail.2.2]⟩

set_option maxRecDepth 1000000 in
/-- C6 counterexample: with the same pattern listed twice in sshd_config —
so the same path is discovered twice — a dry run reports `keys_added = 2`
while the real run on the same inputs reports `keys_added = 1`: the real
run's first write converges the file, and its second iteration reads the
converged state, while the dry run re-reads the original state.  This
refutes the claim that dry-run counts always equal a real run's. -/
theorem dry_run_counts_counterexample :
    (syncSshKeys fsBobOld (some cfgDup) [bobUser] [asgGood] true).1.keys_added = 2 ∧
    (syncSshKeys fsBobOld (some cfgDup) [bobUser] [asgGood] false).1.keys_added = 1 := by
  constructor
  · decide
  · decide

/-- C6 (amended): a dry run performs no filesystem mutation and counts
every file with a non-empty diff in `files_updated`; its reported
keys_added/keys_removed/files_updated equal those of a real run on the same
inputs whenever the discovered files' paths are pairwise distinct and no
path coincides with an earlier file's temporary sibling (in particular,
whenever each file is discovered once) — but not in general, as duplicated
paths make the real run's later reads see earlier writes. -/
theorem dry_run_behavior :
    (∀ fs asgs files, (syncFiles fs asgs true files).2 = fs) ∧
    (∀ fs f asgs existing st fs',
      readAuthorizedKeys fs f = some existing →
      syncUserKeys fs f asgs true = some (st, fs') →
      fs' = fs ∧
      st.files_updated =
        (if (keysToAdd existing (targetKeysOf asgs)).isEmpty &&
            (keysToRemove existing (targetKeysOf asgs)).isEmpty
         then 0 else 1)) ∧
    (∀ fs asgs files,
      List.Pairwise (fun a b => b.path ≠ a.path ∧ b.path ≠ tmpPath a.path) files →
      (syncFiles fs asgs true files).1.keys_added =
        (syncFiles fs asgs false files).1.keys_added ∧
      (syncFiles fs asgs true files).1.keys_removed =
        (syncFiles fs asgs false files).1.keys_removed ∧
      (syncFiles fs asgs true files).1.files_updated =
        (syncFiles fs asgs false files).1.files_updated) := by
  refine ⟨fun fs asgs files => syncFiles_dry_fs fs asgs files, ?_, ?_⟩
  · intro fs f asgs existing st fs' hread h
    refine ⟨syncUserKeys_dry_fs h, ?_⟩
    rw [syncUserKeys, hread] at h
    dsimp only [] at h
    split at h
    next hemp =>
      simp only [Option.some.injEq, Prod.mk.injEq] at h
      rw [← h.1, if_pos hemp]
    next hemp =>
      rw [if_pos rfl] at h
      simp only [Option.some.injEq, Prod.mk.injEq] at h
      rw [← h.1, if_neg hemp]
  · intro fs asgs files hpw
    exact syncFiles_dry_real_counts asgs files fs fs (fun _ _ => rfl) hpw

/-- C6 witness: on a single discovered file (trivially pairwise-distinct),
dry-run and real-run added/removed/updated counts coincide. -/
theorem dry_run_behavior_witness :
    (syncFiles fsBobOld [asgGood] true [bobFile]).1.keys_added =
      (syncFiles fsBobOld [asgGood] false [bobFile]).1.keys_added ∧
    (syncFiles fsBobOld [asgGood] true [bobFile]).1.files_updated =
      (syncFiles fsBobOld [asgGood] false [bobFile]).1.files_updated := by
  have h := dry_run_behavior.2.2 fsBobOld [asgGood] [bobFile] (by simp)
  exact ⟨h.1, h.2.2⟩

/-! ## C8: write-path ordering, final modes, and atomic visibility
(corrected) -/

/-- Along every prefix of the five operations following the optional
directory creation, the target path holds either its initial entry or the
final rendered content with mode 0o600 — provided the temporary path is a
distinct path. -/
theorem write_tail_prefix (s₀ : FsState) (path content : String) (d : String)
    (htp : tmpPath path ≠ path) :
    ∀ ops', ops' <+: [FsOp.setDirMode d 0o700,
        FsOp.createFile (tmpPath path),
        FsOp.writeAll (tmpPath path) content,
        FsOp.setFileMode (tmpPath path) 0o600,
        FsOp.rename (tmpPath path) path] →
      (runOps s₀ ops').files path = s₀.files path ∨
      (runOps s₀ ops').files path = some ⟨content, 0o600⟩ := by
  have htp' : path ≠ tmpPath path := fun h => htp h.symm
  intro ops' h
  rcases List.prefix_cons_iff.mp h with rfl | ⟨t₁, rfl, h₁⟩
  · left; rfl
  rcases List.prefix_cons_iff.mp h₁ with rfl | ⟨t₂, rfl, h₂⟩
  · left; simp [runOps, applyOp]
  rcases List.prefix_cons_iff.mp h₂ with rfl | ⟨t₃, rfl, h₃⟩
  · left; simp [runOps, applyOp, htp']
  rcases List.prefix_cons_iff.mp h₃ with rfl | ⟨t₄, rfl, h₄⟩
  · left; simp [runOps, applyOp, htp']
  rcases List.prefix_cons_iff.mp h₄ with rfl | ⟨t₅, rfl, h₅⟩
  · left; simp [runOps, applyOp, htp']
  rw [List.prefix_nil.mp h₅]
  right
  rcases hfe : s₀.files (tmpPath path) with _ | e <;>
    simp [runOps, applyOp, htp, htp', hfe]

/-- C8 (amended): in every execution of the write path, the temporary
file's mode is set to 0o600 and the parent directory's mode to 0o700
strictly before the rename, which is the final operation; afterwards the
parent directory mode is exactly 0o700 and the target file holds the full
rendered content with mode exactly 0o600, regardless of prior modes; and
whenever the computed temporary path differs from the target path, no
intermediate state shows the target as anything but its initial entry or
the final content with mode 0o600.  (When the target's file name already
ends in `.tmp` the temporary path coincides with the target, which is then
truncated in place — keeping its prior mode — and the last guarantee
fails — see the counterexample.) -/
theorem write_ordering_and_modes :
    (∀ s path keys d ops, parentDir path = some d →
      writeAuthorizedKeysTrace s path keys = some ops →
      ∃ pre, (pre = [] ∨ pre = [FsOp.mkDirAll d]) ∧
        ops = pre ++ [FsOp.setDirMode d 0o700,
          FsOp.createFile (tmpPath path),
          FsOp.writeAll (tmpPath path) (renderContent keys),
          FsOp.setFileMode (tmpPath path) 0o600,
          FsOp.rename (tmpPath path) path]) ∧
    (∀ s path keys d ops, parentDir path = some d →
      writeAuthorizedKeysTrace s path keys = some ops →
      (runOps s ops).dirs d = some 0o700 ∧
      (runOps s ops).files path = some ⟨renderContent keys, 0o600⟩) ∧
    (∀ s path keys d ops ops', parentDir path = some d →
      writeAuthorizedKeysTrace s path keys = some ops →
      tmpPath path ≠ path → ops' <+: ops →
      (runOps s ops').files path = s.files path ∨
      (runOps s ops').files path = some ⟨renderContent keys, 0o600⟩) := by
  refine ⟨?_, ?_, ?_⟩
  · intro s path keys d ops hp htr
    rw [writeAuthorizedKeysTrace, hp] at htr
    simp only [Option.some.injEq] at htr
    by_cases hd : (s.dirs d).isSome
    · exact ⟨[], Or.inl rfl, by rw [← htr, if_pos hd]⟩
    · exact ⟨[FsOp.mkDirAll d], Or.inr rfl, by rw [← htr, if_neg hd]⟩
  · intro s path keys d ops hp htr
    rw [writeAuthorizedKeysTrace, hp] at htr
    simp only [Option.some.injEq] at htr
    subst htr
    constructor
    · by_cases htp : tmpPath path = path
      · by_cases hd : (s.dirs d).isSome
        · obtain ⟨v, hv⟩ := Option.isSome_iff_exists.mp hd
          simp [runOps, applyOp, hd, hv, htp]
        · simp [runOps, applyOp, hd, htp]
      · by_cases hd : (s.dirs d).isSome
        · obtain ⟨v, hv⟩ := Option.isSome_iff_exists.mp hd
          simp [runOps, applyOp, hd, hv, htp]
        · simp [runOps, applyOp, hd, htp]
    · by_cases htp : tmpPath path = path
      · rcases hfe : s.files path with _ | e
        · by_cases hd : (s.dirs d).isSome
          · simp [runOps, applyOp, hd, htp, hfe]
          · simp [runOps, applyOp, hd, htp, hfe]
        · by_cases hd : (s.dirs d).isSome
          · simp [runOps, applyOp, hd, htp, hfe]
          · simp [runOps, applyOp, hd, htp, hfe]
      · have htp' : path ≠ tmpPath path := fun h => htp h.symm
        rcases hfe : s.files (tmpPath path) with _ | e
        · by_cases hd : (s.dirs d).isSome
          · simp [runOps, applyOp, hd, htp, htp', hfe]
          · simp [runOps, applyOp, hd, htp, htp', hfe]
        · by_cases hd : (s.dirs d).isSome
          · simp [runOps, applyOp, hd, htp, htp', hfe]
          · simp [runOps, applyOp, hd, htp, htp', hfe]
  · intro s path keys d ops ops' hp htr htp hpre
    rw [writeAuthorizedKeysTrace, hp] at htr
    simp only [Option.some.injEq] at htr
    subst htr
    by_cases hd : (s.dirs d).isSome
    · rw [if_pos hd, List.nil_append] at hpre
      exact write_tail_prefix s path (renderContent keys) d htp ops' hpre
    · rw [if_neg hd] at hpre
      simp only [List.cons_append, List.nil_append] at hpre
      rcases List.prefix_cons_iff.mp hpre with rfl | ⟨t₁, rfl, h₁⟩
      · left; rfl
      have hfiles : (applyOp s (FsOp.mkDirAll d)).files = s.files := by
        simp [applyOp, hd]
      have h := write_tail_prefix (applyOp s (FsOp.mkDirAll d)) path
        (renderContent keys) d htp t₁ h₁
      rw [hfiles] at h
      exact h

/-- C8 counterexample: when the target path itself ends in `.tmp`, the
computed temporary path equals the target, so the truncating create is
performed directly on the target: after the first two operations of the
trace a reader of the target sees empty content (at the file's preserved
mode 0o600) — neither the initial entry nor the final rendered content —
refuting the universal claim that no reader ever observes partial content
at the target path. -/
theorem write_partial_observation_counterexample :
    tmpPath tmpColl = tmpColl ∧
    writeAuthorizedKeysTrace stateColl tmpColl [] =
      some [FsOp.setDirMode "/home/u/.ssh" 0o700,
        FsOp.createFile tmpColl,
        FsOp.writeAll tmpColl (renderContent []),
        FsOp.setFileMode tmpColl 0o600,
        FsOp.rename tmpColl tmpColl] ∧
    [FsOp.setDirMode "/home/u/.ssh" 0o700, FsOp.createFile tmpColl] <+:
      [FsOp.setDirMode "/home/u/.ssh" 0o700,
        FsOp.createFile tmpColl,
        FsOp.writeAll tmpColl (renderContent []),
        FsOp.setFileMode tmpColl 0o600,
        FsOp.rename tmpColl tmpColl] ∧
    (runOps stateColl [FsOp.setDirMode "/home/u/.ssh" 0o700,
        FsOp.createFile tmpColl]).files tmpColl = some ⟨"", 0o600⟩ ∧
    stateColl.files tmpColl = some ⟨"old", 0o600⟩ ∧
    (some (⟨"", 0o600⟩ : FileEnt) ≠ some (⟨"old", 0o600⟩ : FileEnt)) ∧
    (some (⟨"", 0o600⟩ : FileEnt) ≠
      some (⟨renderContent [], 0o600⟩ : FileEnt)) := by
  refine ⟨by decide, by decide, ⟨[FsOp.writeAll tmpColl (renderContent []),
    FsOp.setFileMode tmpColl 0o600, FsOp.rename tmpColl tmpColl], rfl⟩,
    by decide, by decide, by decide, by decide⟩

/-- C8 witness: writing bob's key file from an empty state yields directory
mode 0o700 and file mode 0o600 with the full rendered content. -/
theorem write_ordering_and_modes_witness :
    (runOps stateEmpty [FsOp.mkDirAll "/home/bob/.ssh",
      FsOp.setDirMode "/home/bob/.ssh" 0o700,
      FsOp.createFile "/home/bob/.ssh/authorized_keys.tmp",
      FsOp.writeAll "/home/bob/.ssh/authorized_keys.tmp" (renderContent [keyAQ]),
      FsOp.setFileMode "/home/bob/.ssh/authorized_keys.tmp" 0o600,
      FsOp.rename "/home/bob/.ssh/authorized_keys.tmp"
        "/home/bob/.ssh/authorized_keys"]).dirs "/home/bob/.ssh" =
      some 0o700 ∧
    (runOps stateEmpty [FsOp.mkDirAll "/home/bob/.ssh",
      FsOp.setDirMode "/home/bob/.ssh" 0o700,
      FsOp.createFile "/home/bob/.ssh/authorized_keys.tmp",
      FsOp.writeAll "/home/bob/.ssh/authorized_keys.tmp" (renderContent [keyAQ]),
      FsOp.setFileMode "/home/bob/.ssh/authorized_keys.tmp" 0o600,
      FsOp.rename "/home/bob/.ssh/authorized_keys.tmp"
        "/home/bob/.ssh/authorized_keys"]).files "/home/bob/.ssh/authorized_keys" =
      some ⟨renderContent [keyAQ], 0o600⟩ :=
  write_ordering_and_modes.2.1 stateEmpty "/home/bob/.ssh/authorized_keys"
    [keyAQ] "/home/bob/.ssh" _ (by decide) rfl

end PubliKey
